import Mathlib

/-!
Shallow embedding of the query-time RAG pipeline of this repository
(app/chunking.py, app/embedding_service.py, app/reranker.py,
app/pipeline.py, app/metrics.py, app/types.py), together with proofs of
the behavioural properties stated in its specification.

Python strings are modelled as lists of characters, Python ints as `Nat`
where the source only ever handles non-negative values (character counts,
indices, configured sizes), dictionaries as association lists, and the
external collaborators (embedding model, vector index, cross-encoder
model, chat model) as explicit function parameters, following the spec's
"opaque services with a request/response contract".
-/

namespace RAG

/-- Python `str`, modelled as its sequence of characters. -/
abbrev PyStr := List Char

/-- Python `str.strip()`: remove leading and trailing whitespace.
(Whitespace membership is modelled by `Char.isWhitespace`.) -/
def pyStrip (s : PyStr) : PyStr :=
  ((s.dropWhile Char.isWhitespace).reverse.dropWhile Char.isWhitespace).reverse

/-- The sentence terminators of `SENTENCE_SEP_PATTERN` (chunking.py line 9):
`。！？?!`. -/
def isSepChar (c : Char) : Bool :=
  c = '。' || c = '！' || c = '？' || c = '?' || c = '!'

/-- `re.split` on the zero-width pattern `(?<=[。！？?!])`: the text is cut
immediately after every sentence terminator; the final part (possibly
empty) is the remainder after the last terminator. -/
def splitParts : PyStr → List PyStr
  | [] => [[]]
  | c :: rest =>
    if isSepChar c then [c] :: splitParts rest
    else
      match splitParts rest with
      | [] => [[c]]
      | p :: ps => (c :: p) :: ps

/-- The accumulation loop of `_split_sentences` (chunking.py lines 14-24):
parts with an empty strip are skipped; a part containing a terminator
(`SENTENCE_SEP_PATTERN.search`) closes the buffer as one sentence. -/
def sentencesLoop : List PyStr → PyStr → List PyStr
  | [], buffer => if pyStrip buffer = [] then [] else [pyStrip buffer]
  | part :: rest, buffer =>
    if pyStrip part = [] then sentencesLoop rest buffer
    else
      if part.any isSepChar then pyStrip (buffer ++ part) :: sentencesLoop rest []
      else sentencesLoop rest (buffer ++ part)

/-- `_split_sentences` (chunking.py lines 12-25), including the
`sentences or [text]` fallback on line 25. -/
def splitSentences (text : PyStr) : List PyStr :=
  let sentences := sentencesLoop (splitParts text) []
  if sentences = [] then [text] else sentences

/-- A value stored in a Python metadata dict. -/
inductive MetaValue
  | str (s : PyStr)
  | nat (n : Nat)
deriving DecidableEq, Repr

/-- A Python metadata dict, as an association list (later entries shadow
earlier ones on lookup; only lookup semantics are relied upon). -/
abbrev Metadata := List (PyStr × MetaValue)

/-- Python dict update `{**m, k: v}` / `m[k] = v`: the key is (re)bound
to `v`. -/
def dictSet (m : Metadata) (k : PyStr) (v : MetaValue) : Metadata :=
  m.filter (fun kv => !(kv.1 == k)) ++ [(k, v)]

/-- `types.RawDocument`. -/
structure RawDocument where
  doc_id : PyStr
  text : PyStr
  source_path : PyStr
  metadata : Metadata
deriving DecidableEq, Repr

/-- `types.DocumentChunk`.  `start_index`/`end_index` are produced as
`max(0, ...)` and a sum, hence non-negative; they are modelled as `Nat`. -/
structure DocumentChunk where
  doc_id : PyStr
  chunk_id : PyStr
  text : PyStr
  start_index : Nat
  end_index : Nat
  metadata : Metadata
deriving DecidableEq, Repr

/-- Decimal digits, most significant first, computed with explicit fuel
(structural recursion, so that concrete chunk ids evaluate inside the
kernel); the fuel never runs out when it starts at least at `n`. -/
def decDigitsF : Nat → Nat → List Nat
  | _, 0 => []
  | 0, _ + 1 => []
  | f + 1, n + 1 => decDigitsF f ((n + 1) / 10) ++ [(n + 1) % 10]

/-- Decimal digits of `n`, most significant first; `[]` for `0`. -/
def decDigits (n : Nat) : List Nat := decDigitsF n n

/-- Python `str(n)` for a non-negative int, as a digit list. -/
def pyNatRepr (n : Nat) : List Nat :=
  if n = 0 then [0] else decDigits n

/-- Python `f"{n:05d}"`: the decimal representation left-padded with `'0'`
to a width of (at least) 5. -/
def fmt05 (n : Nat) : PyStr :=
  let ds := (pyNatRepr n).map Nat.digitChar
  List.replicate (5 - ds.length) '0' ++ ds

/-- `f"{doc_id}_{chunk_index:05d}"` (chunking.py lines 53 and 83). -/
def chunkId (doc_id : PyStr) (chunk_index : Nat) : PyStr :=
  doc_id ++ '_' :: fmt05 chunk_index

/-- Total character count of a list of sentences
(`sum(len(s) for s in current_chunk)`). -/
def sumLen (l : List PyStr) : Nat := (l.map List.length).sum

/-- The loop state of `chunk_document` (chunking.py lines 40-45). -/
structure ChunkState where
  chunks : List DocumentChunk
  text_cursor : Nat
  chunk_index : Nat
  current_chunk : List PyStr
  current_length : Nat
deriving Repr

/-- The chunk record built when a window is closed (chunking.py
lines 50-66 and 80-96).  `max(0, text_cursor - current_length)` on Python
ints coincides with truncated `Nat` subtraction. -/
def emitChunk (document : RawDocument) (st : ChunkState) : DocumentChunk :=
  let chunk_text := pyStrip st.current_chunk.flatten
  let start := st.text_cursor - st.current_length
  { doc_id := document.doc_id
    chunk_id := chunkId document.doc_id st.chunk_index
    text := chunk_text
    start_index := start
    end_index := start + chunk_text.length
    metadata := dictSet document.metadata "chunk_index".data (.nat st.chunk_index) }

/-- The overlap loop (chunking.py lines 70-72): pop sentences from the
front of the window while it is longer than `overlap`. -/
def dropOverlap (overlap : Nat) : List PyStr → Nat → List PyStr
  | [], _ => []
  | s :: rest, len =>
    if len > overlap then dropOverlap overlap rest (len - s.length) else s :: rest

/-- One iteration of the sentence loop of `chunk_document` (chunking.py
lines 47-77).  After the overlap loop the code recomputes
`current_length = sum(len(s) for s in current_chunk)` (line 73), modelled
by `sumLen`. -/
def chunkStep (document : RawDocument) (chunk_size overlap : Nat)
    (st : ChunkState) (sentence : PyStr) : ChunkState :=
  let sentence_length := sentence.length
  let st' :=
    if st.current_length + sentence_length > chunk_size ∧ st.current_chunk ≠ [] then
      let rest := dropOverlap overlap st.current_chunk st.current_length
      { chunks := st.chunks ++ [emitChunk document st]
        text_cursor := st.text_cursor
        chunk_index := st.chunk_index + 1
        current_chunk := rest
        current_length := sumLen rest }
    else st
  { st' with
    current_chunk := st'.current_chunk ++ [sentence]
    current_length := st'.current_length + sentence_length
    text_cursor := st'.text_cursor + sentence_length }

/-- The initial loop state of `chunk_document`. -/
def initChunkState : ChunkState :=
  { chunks := [], text_cursor := 0, chunk_index := 0
    current_chunk := [], current_length := 0 }

/-- `chunk_document` (chunking.py lines 28-98): the sentence loop followed
by the trailing-window flush (lines 79-96). -/
def chunk_document (document : RawDocument) (chunk_size overlap : Nat) :
    List DocumentChunk :=
  let sentences := splitSentences document.text
  if sentences = [] then []
  else
    let final := sentences.foldl (chunkStep document chunk_size overlap) initChunkState
    if final.current_chunk ≠ [] then final.chunks ++ [emitChunk document final]
    else final.chunks

/-- `chunk_corpus` (chunking.py lines 101-117): concatenation of the
per-document results in document order. -/
def chunk_corpus (documents : List RawDocument) (chunk_size overlap : Nat) :
    List DocumentChunk :=
  (documents.map (fun d => chunk_document d chunk_size overlap)).flatten

/-- The value of a big-endian digit list (used to invert `fmt05`). -/
def valNat (ds : List Nat) : Nat := ds.foldl (fun a d => 10 * a + d) 0

/-- The value of a big-endian string of digit characters (used to invert
`fmt05`). -/
def charsVal (cs : PyStr) : Nat := cs.foldl (fun a c => 10 * a + (c.toNat - 48)) 0

/-- The loop invariant of `chunk_document`: the running length matches the
window, never exceeds the cursor, emitted chunks carry the document's id
and the ids `chunkId doc 0 .. chunkId doc (chunk_index - 1)` in order,
their offsets are well formed and bounded by the cursor, every start is
at most the next window's start (`text_cursor - current_length`), and
starts are non-decreasing. -/
def ChunkInv (document : RawDocument) (st : ChunkState) : Prop :=
  st.current_length = sumLen st.current_chunk ∧
  st.current_length ≤ st.text_cursor ∧
  st.chunks.map (fun c => c.chunk_id) =
    (List.range st.chunk_index).map (chunkId document.doc_id) ∧
  (∀ c ∈ st.chunks, c.doc_id = document.doc_id) ∧
  (∀ c ∈ st.chunks, c.start_index ≤ st.text_cursor - st.current_length) ∧
  (∀ c ∈ st.chunks, c.start_index ≤ c.end_index ∧ c.end_index ≤ st.text_cursor) ∧
  List.Pairwise (· ≤ ·) (st.chunks.map (fun c => c.start_index))

/-! ## EmbeddingService (embedding_service.py)

The in-memory cache is a dict keyed by `_hash_text(text)` = `sha256(text)`
(line 97).  The digest is modelled by the text itself: an injective key,
matching the spec's "cryptographic digest (collision-free in practice)".
The underlying `_embed_batch` model call is an explicit function parameter
returning one vector per input row (the embedding-model collaborator
contract), and the vector type `V` is abstract. -/

/-- The in-memory `_cache` dict. -/
abbrev Cache (V : Type) := List (PyStr × V)

/-- `self._cache.get(key)` (line 126). -/
def cacheGet {V : Type} : Cache V → PyStr → Option V
  | [], _ => none
  | (k, v) :: rest, t => if k = t then some v else cacheGet rest t

/-- `self._cache[cache_key] = embed` (line 144): dict assignment; the new
binding shadows any previous one. -/
def cacheSet {V : Type} (cache : Cache V) (t : PyStr) (v : V) : Cache V :=
  (t, v) :: cache

/-- The observable outcome of one `embed_texts` call: the returned rows,
the in-memory cache and dirty flag afterwards, and the argument list of
each `_embed_batch` invocation performed. -/
structure EmbedOutcome (V : Type) where
  result : List V
  cache : Cache V
  dirty : Bool
  calls : List (List PyStr)
deriving Repr

/-- The row returned for one input position of `embed_texts`: its cache
hit, or — for a miss — the row of `new_embeds` that the fill loop
(lines 140-145) routes back to it, which is the model's vector for that
position's text (`new_embeds[offset]` lands at `missing_indices[offset]`,
and `missing_texts[offset]` is that position's text). -/
def cachedRow {V : Type} (model : PyStr → V) (cache : Cache V) (t : PyStr) : V :=
  match cacheGet cache t with
  | some v => v
  | none => model t

/-- `EmbeddingService.embed_texts` (lines 112-149) with an infallible
model.  The read loop (lines 123-132) collects cache hits and records the
missing texts (with their indices) in input order; if anything is missing,
`_embed_batch` runs once on `missing_texts` (line 136), the fill loop
routes each row back to its position (`cachedRow`), and each row is
inserted into the cache, setting the dirty flag.  (`_save_cache` on
line 147 persists to disk; disk state is outside this model.) -/
def embed_texts {V : Type} (model : PyStr → V) (cache : Cache V) (dirty : Bool)
    (texts : List PyStr) : EmbedOutcome V :=
  if texts = [] then ⟨[], cache, dirty, []⟩
  else
    let missing := texts.filter (fun t => (cacheGet cache t).isNone)
    let result := texts.map (cachedRow model cache)
    if missing = [] then ⟨result, cache, dirty, []⟩
    else
      ⟨result, missing.foldl (fun c t => cacheSet c t (model t)) cache, true, [missing]⟩

/-- The outcome of `embed_texts` when the `_embed_batch` call may raise:
`result = none` means the exception propagated to the caller. -/
structure EmbedTryOutcome (V : Type) where
  result : Option (List V)
  cache : Cache V
  dirty : Bool
  calls : List (List PyStr)

/-- `EmbeddingService.embed_texts` (lines 112-149) with a fallible model:
`model t = none` means the batched `_embed_batch` call raises.  The raise
happens on line 136, before the cache-update block (lines 139-145), so the
exception leaves cache and dirty flag untouched.  On success the call
behaves like the infallible version (the `getD default` is never read:
every missing text succeeded). -/
def embed_texts_try {V : Type} [Inhabited V] (model : PyStr → Option V)
    (cache : Cache V) (dirty : Bool) (texts : List PyStr) : EmbedTryOutcome V :=
  if texts = [] then ⟨some [], cache, dirty, []⟩
  else
    let missing := texts.filter (fun t => (cacheGet cache t).isNone)
    if missing = [] then
      ⟨some (texts.map (fun t => ((cacheGet cache t).getD default))), cache, dirty, []⟩
    else
      match missing.mapM model with
      | none => ⟨none, cache, dirty, [missing]⟩
      | some _ =>
        let filled := fun t => (model t).getD default
        ⟨some (texts.map (fun t =>
            match cacheGet cache t with
            | some v => v
            | none => filled t)),
          missing.foldl (fun c t => cacheSet c t (filled t)) cache, true, [missing]⟩

/-! ## Reranker (reranker.py)

`RetrievalResult` dataclasses compare by field equality (`item not in
ranked`, line 84), modelled by `DecidableEq`.  The score write-back
`item.chunk.metadata["score"] = score` (line 80) mutates the shared chunk
object in place — it changes no object identity and both `candidates` and
`ranked` alias the same objects, so it is not observable at the value
level modelled here and is omitted. -/

/-- `types.RetrievalResult`.  The similarity score (a Python float) is
only carried along, never computed with; it is modelled as `Int`. -/
structure RetrievalResult where
  chunk : DocumentChunk
  score : Int
deriving DecidableEq, Repr

/-- One dict returned by the external `RAGPretrainedModel.rerank` call:
keys `content`, `score`, `rank`, `result_index` (comment on line 59); the
code reads `score`, `result_index`, `content` and `text`, each possibly
absent (`None`). -/
structure RerankEntry where
  score : Option Int
  result_index : Option Nat
  content : Option PyStr
  text : Option PyStr
deriving DecidableEq, Repr

/-- Python `a or b` on optional strings (line 65): keep `a` when it is
truthy (present and non-empty), otherwise take `b` as is. -/
def pyOrStr (a b : Option PyStr) : Option PyStr :=
  match a with
  | some s => if s = [] then b else some s
  | none => b

/-- Python truthiness of an optional string: `None` and `""` are falsy. -/
def strTruthy : Option PyStr → Bool
  | some s => !s.isEmpty
  | none => false

/-- `item.chunk.text`, the passage text of a retrieval result. -/
def chunkText (item : RetrievalResult) : PyStr := item.chunk.text

/-- Index resolution for one result dict (lines 64-72): take
`result_index` when present; otherwise look the (truthy) text up among
the passages, `None` (skip) when the text is falsy or not found. -/
def resolveIndex (passages : List PyStr) (e : RerankEntry)
    (text : Option PyStr) : Option Nat :=
  match e.result_index with
  | some i => some i
  | none =>
    if strTruthy text then passages.findIdx? (fun p => p = text.getD [])
    else none

/-- Processing of one result dict in the loop of `ColBERTReranker.rerank`
(lines 62-81): resolve the candidate index, look it up in `mapping`
(`dict.get`: any non-key, negative included, yields `None` and skips,
lines 73-75), and apply the `seen_texts` dedup (lines 76-79).  Returns
`none` when one of the `continue` paths fires, otherwise the appended
item and the updated `seen_texts`. -/
def colbertStep (passages : List PyStr) (candidates : List RetrievalResult)
    (e : RerankEntry) (seen : List PyStr) :
    Option (RetrievalResult × List PyStr) :=
  let text := pyOrStr e.content e.text
  match resolveIndex passages e text with
  | none => none
  | some index =>
    match candidates[index]? with
    | none => none
    | some item =>
      if strTruthy text && seen.contains (text.getD []) then none
      else some (item, if strTruthy text then text.getD [] :: seen else seen)

/-- The result-processing loop of `ColBERTReranker.rerank` (lines 60-81),
accumulating `ranked` and `seen_texts` over the model's result dicts. -/
def colbertLoop (passages : List PyStr) (candidates : List RetrievalResult) :
    List RerankEntry → List RetrievalResult → List PyStr → List RetrievalResult
  | [], ranked, _seen => ranked
  | e :: rest, ranked, seen =>
    match colbertStep passages candidates e seen with
    | none => colbertLoop passages candidates rest ranked seen
    | some (item, seen') => colbertLoop passages candidates rest (ranked ++ [item]) seen'

/-- `ColBERTReranker.rerank` (lines 52-87), with the external model's
return value passed in as `results`: process the results, backfill from
the original candidate order when fewer than `top_k` were kept
(lines 83-85), and truncate to `top_k`. -/
def colbert_rerank (results : List RerankEntry) (candidates : List RetrievalResult)
    (top_k : Nat) : List RetrievalResult :=
  let passages := candidates.map chunkText
  let ranked := colbertLoop passages candidates results [] []
  let ranked :=
    if ranked.length < top_k then
      ranked ++ (candidates.filter (fun item => !(decide (item ∈ ranked)))).take
        (top_k - ranked.length)
    else ranked
  ranked.take top_k

/-- The closed set of variants produced by `build_reranker`
(lines 90-97): `NoOpReranker` or `ColBERTReranker`, the latter carrying
its external cross-encoder model as a function from (query, passages,
top_k) to the returned result dicts. -/
inductive Reranker
  | noop
  | colbert (model : PyStr → List PyStr → Nat → List RerankEntry)

/-- `BaseReranker.rerank` dispatch: `NoOpReranker.rerank` (lines 30-33)
returns `list(candidates)[:top_k]`; `ColBERTReranker.rerank` calls the
external model on the candidate passages (lines 55-57) and processes its
results. -/
def rerank : Reranker → PyStr → List RetrievalResult → Nat → List RetrievalResult
  | .noop, _query, candidates, top_k => candidates.take top_k
  | .colbert model, query, candidates, top_k =>
    colbert_rerank (model query (candidates.map chunkText) top_k)
      candidates top_k

/-- The documented shape of the external cross-encoder's return value
(comment on reranker.py line 59; spec "a ranked subset with score, rank,
and an index or text back-reference to the source passage"): each result
dict carries a `result_index` referring to a passage and `content` equal
to that passage, with no separate `text` key, and no passage is referred
to twice. -/
def WellFormedResults (results : List RerankEntry) (passages : List PyStr) : Prop :=
  (results.map (fun e => e.result_index)).Nodup ∧
  ∀ e ∈ results, ∃ i p, e.result_index = some i ∧ passages[i]? = some p ∧
    e.content = some p ∧ e.text = none

/-- Well-formedness of the external model output carried by a reranker
variant, for the passages it would be called on; trivially true for the
pass-through variant, which calls no model. -/
def RerankerWF : Reranker → PyStr → List RetrievalResult → Nat → Prop
  | .noop, _, _, _ => True
  | .colbert model, query, candidates, top_k =>
    WellFormedResults (model query (candidates.map chunkText) top_k)
      (candidates.map chunkText)

/-! ## Pipeline (pipeline.py) and metrics (metrics.py)

`RAGPipeline.answer` is modelled with its collaborators as parameters:
the vector search behind `Retriever.retrieve` as `retrieveFn depth query`
(`Retriever` is constructed with `top_k = retrieval_depth` on line 81 and
requests that many candidates from the store), and
`Generator.generate_answer` as `generate query contexts`.  Wall-clock
timings (`time.perf_counter`) are outside the model and recorded as 0. -/

/-- The fields of `config.Settings` read on the query path (the path,
credential and model-name fields configure unmodelled collaborators). -/
structure Settings where
  chunk_size : Nat
  chunk_overlap : Nat
  top_k : Nat
  rerank_top_k : Nat
deriving DecidableEq, Repr

/-- Python `top_k or self.settings.top_k` (lines 80 and 88): `None` and
`0` are both falsy and fall back to the configured default. -/
def pyOrNat (a : Option Nat) (b : Nat) : Nat :=
  match a with
  | some k => if k = 0 then b else k
  | none => b

/-- The dict returned by `Generator.generate_answer`: an answer string
and citation records (their contents are opaque to the pipeline). -/
structure GenerationPayload where
  answer : PyStr
  citations : List Metadata
deriving DecidableEq, Repr

/-- One entry of the `context_payload` list (pipeline.py lines 102-110). -/
structure ContextPayload where
  doc_id : PyStr
  chunk_id : PyStr
  text : PyStr
  metadata : Metadata
deriving DecidableEq, Repr

/-- `types.Answer` (latency and timestamp are wall-clock and recorded
as 0 here). -/
structure AnswerRecord where
  query : PyStr
  answer : PyStr
  citations : List Metadata
  contexts : List ContextPayload
  latency_ms : Nat
deriving DecidableEq, Repr

/-- One row appended by `MetricsCollector.record` (metrics.py
lines 55-81): the fields that carry pipeline data (the three latency
fields are wall-clock, the timestamp is `datetime.utcnow()`; neither is
modelled). -/
structure MetricsRow where
  query : PyStr
  retrieved_k : Nat
  status : PyStr
deriving DecidableEq, Repr

/-- The collaborator invocations performed by one `answer` call:
`(depth, query)` per retriever construction + `retrieve`, the `top_k`
passed per `rerank` call, `(query, contexts)` per
`generate_answer` call, and the rows handed to `MetricsCollector.record`. -/
structure AnswerTrace where
  retrieve_calls : List (Nat × PyStr)
  rerank_calls : List Nat
  generate_calls : List (PyStr × List RetrievalResult)
  metrics_rows : List MetricsRow
deriving DecidableEq, Repr

/-- Write a rank annotation into each result's chunk metadata
(pipeline.py lines 85-86 and 90-91): `enumerate(…, start=1)`. -/
def annotateRank (key : PyStr) (results : List RetrievalResult) :
    List RetrievalResult :=
  results.enum.map (fun p =>
    { p.2 with chunk :=
      { p.2.chunk with metadata := dictSet p.2.chunk.metadata key (.nat (p.1 + 1)) } })

/-- `RAGPipeline.answer` (pipeline.py lines 73-133): validate the query,
retrieve at `max(rerank_top_k, top_k or settings.top_k)` candidates,
rerank to `top_k or settings.top_k`, generate, assemble the `Answer`, and
record one metrics row with `retrieved_k = len(reranked_results)`.
Returns the result (`ValueError` for a blank query, raised on line 76
before any stage runs) together with the invocation trace. -/
def pipeline_answer (settings : Settings) (reranker : Reranker)
    (retrieveFn : Nat → PyStr → List RetrievalResult)
    (generate : PyStr → List RetrievalResult → GenerationPayload)
    (query : PyStr) (top_k : Option Nat) :
    Except PyStr AnswerRecord × AnswerTrace :=
  if pyStrip query = [] then
    (.error "Query must not be empty.".data, ⟨[], [], [], []⟩)
  else
    let retrieval_depth := max settings.rerank_top_k (pyOrNat top_k settings.top_k)
    let retrieval_results := annotateRank "retrieval_rank".data
      (retrieveFn retrieval_depth query)
    let final_k := pyOrNat top_k settings.top_k
    let reranked_results := annotateRank "rerank_rank".data
      (rerank reranker query retrieval_results final_k)
    let payload := generate query reranked_results
    let context_payload := reranked_results.map (fun item =>
      { doc_id := item.chunk.doc_id
        chunk_id := item.chunk.chunk_id
        text := item.chunk.text
        metadata := item.chunk.metadata : ContextPayload })
    let answer : AnswerRecord :=
      { query := query
        answer := payload.answer
        citations := payload.citations
        contexts := context_payload
        latency_ms := 0 }
    (.ok answer,
      { retrieve_calls := [(retrieval_depth, query)]
        rerank_calls := [final_k]
        generate_calls := [(query, reranked_results)]
        metrics_rows := [{ query := query
                           retrieved_k := reranked_results.length
                           status := "success".data }] })



/-! ## Concrete sample data used by witnesses and counterexamples -/

/-- The two-sentence document of the end-to-end scenario. -/
def twoSentenceDoc : RawDocument :=
  { doc_id := "doc".data
    text := "天气很好。我们去公园。".data
    source_path := []
    metadata := [] }

/-- A mock vector search returning no candidates. -/
def trivialRetrieve : Nat → PyStr → List RetrievalResult := fun _ _ => []

/-- A mock generator returning an empty payload. -/
def trivialGenerate : PyStr → List RetrievalResult → GenerationPayload :=
  fun _ _ => ⟨[], []⟩

/-- A settings value with `top_k = 5` and `rerank_top_k = 12` (the spec's
depth-amplification example). -/
def sampleSettings : Settings :=
  { chunk_size := 100, chunk_overlap := 20, top_k := 5, rerank_top_k := 12 }

/-- A concrete retrieval result for pipeline scenarios. -/
def sampleResult (cid : PyStr) : RetrievalResult :=
  { chunk := { doc_id := "d".data, chunk_id := cid, text := cid,
               start_index := 0, end_index := 0, metadata := [] }
    score := 0 }

/-- A mock vector search returning two candidates. -/
def twoResultRetrieve : Nat → PyStr → List RetrievalResult :=
  fun _ _ => [sampleResult "c1".data, sampleResult "c2".data]

/-- Two candidates with distinct texts, for the rerank contract witness. -/
def twoDistinctCandidates : List RetrievalResult :=
  [{ chunk := { doc_id := "d".data, chunk_id := "c1".data, text := "x".data,
                start_index := 0, end_index := 0, metadata := [] }, score := 0 },
   { chunk := { doc_id := "d".data, chunk_id := "c2".data, text := "y".data,
                start_index := 0, end_index := 0, metadata := [] }, score := 0 }]

/-! ## C1: the two-sentence end-to-end chunking scenario -/



/-- C1, counterexample: chunking `"天气很好。我们去公园。"` with
`chunk_size = 10` and `overlap = 2` yields two chunks, not exactly one —
the two sentences together are 11 characters, which exceeds 10, so the
window closes after the first sentence. -/
theorem two_sentence_chunk10_not_single_chunk :
    (chunk_document twoSentenceDoc 10 2).length = 2 := by decide

/-- C1 (amended): with `chunk_size = 10, overlap = 2` the two-sentence
document yields exactly two chunks, one per sentence, the first with
`chunk_id = "doc_00000"` and the second with `"doc_00001"`; a single
chunk containing both sentences (combined length 11) is produced once
`chunk_size` accommodates them, e.g. at `chunk_size = 11`, with
`chunk_id = "doc_00000"`. -/
theorem two_sentence_chunk_sizes :
    (chunk_document twoSentenceDoc 10 2).map (fun c => (c.chunk_id, c.text)) =
      [("doc_00000".data, "天气很好。".data),
       ("doc_00001".data, "我们去公园。".data)] ∧
    (chunk_document twoSentenceDoc 11 2).map (fun c => (c.chunk_id, c.text)) =
      [("doc_00000".data, "天气很好。我们去公园。".data)] := by decide

/-! ## C6: empty text and oversized sentences -/

/-- C6 (code bug on the empty-text half): chunking a document whose text
is the empty string produces one chunk with empty text instead of no
chunks: `_split_sentences("")` returns `[""]` through the
`sentences or [text]` fallback (chunking.py line 25), so the
`if not sentences: return []` guard on lines 37-38 can never fire and the
final flush emits the empty window (`if current_chunk:` is true for
`[""]`).  By contrast, a single sentence longer than `chunk_size` is kept
whole as its own chunk, as the claim states. -/
theorem empty_text_yields_one_empty_chunk :
    chunk_document { doc_id := "e".data, text := [], source_path := [],
                     metadata := [] } 10 2 =
      [{ doc_id := "e".data, chunk_id := "e_00000".data, text := [],
         start_index := 0, end_index := 0,
         metadata := [("chunk_index".data, .nat 0)] }] ∧
    (chunk_document { doc_id := "b".data, text := "这是一个很长的句子".data,
                      source_path := [], metadata := [] } 5 2).map
        (fun c => c.text) =
      ["这是一个很长的句子".data] := by decide

/-! ## Cache lemmas for embed_texts -/

theorem cacheGet_nil {V : Type} (t : PyStr) : cacheGet ([] : Cache V) t = none := rfl

theorem mem_missing_iff {V : Type} (cache : Cache V) (texts : List PyStr) (t : PyStr) :
    t ∈ texts.filter (fun u => (cacheGet cache u).isNone) ↔
      t ∈ texts ∧ cacheGet cache t = none := by
  simp [List.mem_filter, Option.isNone_iff_eq_none]

/-- Looking up the cache after the update loop inserted the model's row
for every missing text. -/
theorem cacheGet_foldl_set {V : Type} (model : PyStr → V) (missing : List PyStr)
    (cache : Cache V) (t : PyStr) :
    cacheGet (missing.foldl (fun c u => cacheSet c u (model u)) cache) t =
      if t ∈ missing then some (model t) else cacheGet cache t := by
  induction missing generalizing cache with
  | nil => simp
  | cons m rest ih =>
    rw [List.foldl_cons, ih]
    by_cases hr : t ∈ rest
    · simp [hr]
    · by_cases hm : t = m
      · subst hm
        simp [hr, cacheSet, cacheGet]
      · have hmt : ¬ m = t := fun h => hm h.symm
        simp [hr, hm, cacheSet, cacheGet, hmt]

/-! ## C2: duplicate text inside one embed_texts batch -/

/-- C2, counterexample: on an empty cache, `embed_texts(["a", "b", "a"])`
invokes the model once but with the full miss list `["a", "b", "a"]` —
the duplicate is not deduplicated, so the batch is not (a sub-batch of)
the distinct set `{a, b}`. -/
theorem embed_texts_batch_repeats_text :
    (embed_texts (fun t => t.length) [] false
        ["a".data, "b".data, "a".data]).calls =
      [["a".data, "b".data, "a".data]] ∧
    ¬ (∀ batch ∈ (embed_texts (fun t => t.length) [] false
        ["a".data, "b".data, "a".data]).calls, batch.Nodup) := by decide

/-- C2 (amended): for every call `embed_texts([a, b, a])` on a cache that
contains neither `a` nor `b`, the underlying model is invoked exactly
once, with the whole list of cache-missing texts in input order —
`[a, b, a]`, the duplicated text included — and the returned array has
three rows with row 0 equal to row 2 (both the model's vector for `a`). -/
theorem embed_texts_dup_batch {V : Type} (model : PyStr → V) (cache : Cache V)
    (dirty : Bool) (a b : PyStr)
    (ha : cacheGet cache a = none) (hb : cacheGet cache b = none) :
    (embed_texts model cache dirty [a, b, a]).calls = [[a, b, a]] ∧
    (embed_texts model cache dirty [a, b, a]).result =
      [model a, model b, model a] ∧
    (embed_texts model cache dirty [a, b, a]).result.length = 3 ∧
    (embed_texts model cache dirty [a, b, a]).result.get? 0 =
      (embed_texts model cache dirty [a, b, a]).result.get? 2 := by
  simp [embed_texts, cachedRow, ha, hb]

/-- Witness for `embed_texts_dup_batch` at a concrete model and texts. -/
theorem embed_texts_dup_batch_witness :
    cacheGet ([] : Cache Nat) "a".data = none ∧
    cacheGet ([] : Cache Nat) "b".data = none ∧
    (embed_texts (fun t => t.length) [] false
        ["a".data, "b".data, "a".data]).calls =
      [["a".data, "b".data, "a".data]] := by
  refine ⟨rfl, rfl, ?_⟩
  exact (embed_texts_dup_batch (fun t => t.length) [] false
    "a".data "b".data rfl rfl).1

/-! ## C5: a repeated embed_texts call is served from the cache -/

/-- When every input text is a cache hit, `embed_texts` returns the
cached rows and performs no model call and no state change. -/
theorem embed_texts_all_hits {V : Type} (model : PyStr → V) (cache : Cache V)
    (dirty : Bool) (texts : List PyStr) (f : PyStr → V)
    (hget : ∀ t ∈ texts, cacheGet cache t = some (f t)) :
    embed_texts model cache dirty texts = ⟨texts.map f, cache, dirty, []⟩ := by
  have hrow : ∀ t ∈ texts, cachedRow model cache t = f t := by
    intro t ht
    simp [cachedRow, hget t ht]
  by_cases hT : texts = []
  · subst hT
    simp [embed_texts]
  · have hM : texts.filter (fun t => (cacheGet cache t).isNone) = [] := by
      rw [List.filter_eq_nil_iff]
      intro t ht
      rw [hget t ht]
      simp
    simp only [embed_texts, if_neg hT, hM, if_pos rfl]
    exact congrArg (fun l => EmbedOutcome.mk l cache dirty [])
      (List.map_congr_left hrow)

/-- The rows returned by `embed_texts` are always the positionwise
cached-or-freshly-embedded rows of the input. -/
theorem embed_texts_result {V : Type} (model : PyStr → V) (cache : Cache V)
    (dirty : Bool) (texts : List PyStr) :
    (embed_texts model cache dirty texts).result =
      texts.map (cachedRow model cache) := by
  by_cases hT : texts = []
  · subst hT
    simp [embed_texts]
  · by_cases hM : texts.filter (fun t => (cacheGet cache t).isNone) = []
    · simp [embed_texts, hT, hM]
    · simp [embed_texts, hT, hM]

/-- After one `embed_texts` call, every input text is cached with exactly
the row that the call returned for it. -/
theorem embed_texts_caches_inputs {V : Type} (model : PyStr → V)
    (cache : Cache V) (dirty : Bool) (texts : List PyStr) :
    ∀ t ∈ texts, cacheGet (embed_texts model cache dirty texts).cache t =
      some (cachedRow model cache t) := by
  intro t ht
  by_cases hT : texts = []
  · subst hT
    exact absurd ht (List.not_mem_nil t)
  · have hmiss : ¬ cacheGet cache t = none →
        ∃ v, cacheGet cache t = some v := by
      intro hn
      rcases hs : cacheGet cache t with _ | v
      · exact absurd hs hn
      · exact ⟨v, rfl⟩
    by_cases hM : texts.filter (fun u => (cacheGet cache u).isNone) = []
    · have hc : (embed_texts model cache dirty texts).cache = cache := by
        simp [embed_texts, hT, hM]
      rw [hc]
      have hnone : ¬ cacheGet cache t = none := by
        intro hn
        have : t ∈ texts.filter (fun u => (cacheGet cache u).isNone) :=
          (mem_missing_iff cache texts t).2 ⟨ht, hn⟩
        rw [hM] at this
        exact absurd this (List.not_mem_nil t)
      rcases hmiss hnone with ⟨v, hv⟩
      simp [hv, cachedRow]
    · have hc : (embed_texts model cache dirty texts).cache =
        (texts.filter (fun u => (cacheGet cache u).isNone)).foldl
          (fun c u => cacheSet c u (model u)) cache := by
        simp [embed_texts, hT, hM]
      rw [hc, cacheGet_foldl_set]
      by_cases hmem : t ∈ texts.filter (fun u => (cacheGet cache u).isNone)
      · have hn := ((mem_missing_iff cache texts t).1 hmem).2
        simp [hmem, cachedRow, hn]
      · have hnone : ¬ cacheGet cache t = none := by
          intro hn
          exact hmem ((mem_missing_iff cache texts t).2 ⟨ht, hn⟩)
        rcases hmiss hnone with ⟨v, hv⟩
        simp [hmem, hv, cachedRow]

/-- C5: calling `embed_texts` a second time with the same input list
returns vectors identical to the first call's result, with the cache
unchanged and without any model invocation (`calls = []`). -/
theorem embed_texts_idempotent {V : Type} (model : PyStr → V) (cache : Cache V)
    (dirty : Bool) (texts : List PyStr) :
    (embed_texts model (embed_texts model cache dirty texts).cache
        (embed_texts model cache dirty texts).dirty texts).result =
      (embed_texts model cache dirty texts).result ∧
    (embed_texts model (embed_texts model cache dirty texts).cache
        (embed_texts model cache dirty texts).dirty texts).calls = [] ∧
    (embed_texts model (embed_texts model cache dirty texts).cache
        (embed_texts model cache dirty texts).dirty texts).cache =
      (embed_texts model cache dirty texts).cache := by
  have h2 := embed_texts_all_hits model (embed_texts model cache dirty texts).cache
    (embed_texts model cache dirty texts).dirty texts (cachedRow model cache)
    (embed_texts_caches_inputs model cache dirty texts)
  rw [h2, embed_texts_result]
  exact ⟨rfl, rfl, rfl⟩

/-! ## C8: a failed model call leaves the cache untouched -/

/-- C8: if the batched `_embed_batch` model call raises during
`embed_texts`, the in-memory cache state is returned unchanged — no
entries inserted and the dirty flag not set — because cache writes happen
only after the model call succeeds. -/
theorem embed_texts_failed_batch_leaves_cache {V : Type} [Inhabited V]
    (model : PyStr → Option V) (cache : Cache V) (dirty : Bool)
    (texts : List PyStr)
    (h : (embed_texts_try model cache dirty texts).result = none) :
    (embed_texts_try model cache dirty texts).cache = cache ∧
    (embed_texts_try model cache dirty texts).dirty = dirty := by
  by_cases h1 : texts = []
  · simp only [embed_texts_try, if_pos h1] at h
    exact absurd h (by simp)
  · by_cases h2 : texts.filter (fun t => (cacheGet cache t).isNone) = []
    · simp only [embed_texts_try, if_neg h1, if_pos h2] at h
      exact absurd h (by simp)
    · rcases h3 : (texts.filter (fun t => (cacheGet cache t).isNone)).mapM model with
        _ | rows
      · simp only [embed_texts_try, if_neg h1, if_neg h2]
        rw [h3]
        exact ⟨rfl, rfl⟩
      · simp only [embed_texts_try, if_neg h1, if_neg h2] at h
        rw [h3] at h
        exact absurd h (by simp)

/-- Witness for `embed_texts_failed_batch_leaves_cache`: a model that
raises on every text, called on one uncached text. -/
theorem embed_texts_failed_batch_leaves_cache_witness :
    (embed_texts_try (fun _ => (none : Option Nat)) [] false ["x".data]).result =
      none ∧
    (embed_texts_try (fun _ => (none : Option Nat)) [] false ["x".data]).cache =
      [] ∧
    (embed_texts_try (fun _ => (none : Option Nat)) [] false ["x".data]).dirty =
      false := by
  have hres : (embed_texts_try (fun _ => (none : Option Nat)) [] false
      ["x".data]).result = none := by rfl
  have h := embed_texts_failed_batch_leaves_cache
    (fun _ => (none : Option Nat)) [] false ["x".data] hres
  exact ⟨hres, h.1, h.2⟩

/-! ## Pipeline claims: C3, C7, C10 -/

/-- Rank annotation does not change how many results there are. -/
theorem annotateRank_length (key : PyStr) (results : List RetrievalResult) :
    (annotateRank key results).length = results.length := by
  simp [annotateRank]

/-- Both reranker variants return at most `top_k` results. -/
theorem rerank_length_le (r : Reranker) (query : PyStr)
    (candidates : List RetrievalResult) (top_k : Nat) :
    (rerank r query candidates top_k).length ≤ top_k := by
  cases r with
  | noop => simp [rerank]
  | colbert model => simp [rerank, colbert_rerank]







/-- C3, counterexample: with defaults `top_k = 20, rerank_top_k = 12`, the
call `answer(q, top_k=0)` retrieves `max(12, 20) = 20` candidates, not
`max(12, 0) = 12`: Python's `top_k or self.settings.top_k` (line 80)
treats the requested value `0` as falsy and substitutes the configured
default. -/
theorem pipeline_topk_zero_depth_counterexample :
    (pipeline_answer { chunk_size := 100, chunk_overlap := 20,
                       top_k := 20, rerank_top_k := 12 }
        .noop trivialRetrieve trivialGenerate "q".data (some 0)).2.retrieve_calls =
      [(20, "q".data)] ∧
    (20 : Nat) ≠ max 12 0 := by
  exact ⟨by decide, by decide⟩

/-- C3 (amended): for every call with a positive requested `top_k = k`,
retrieval requests exactly `max(rerank_top_k, k)` candidates before
reranking; when `top_k` is omitted (or zero, which Python's `or` treats
as absent) the configured default `settings.top_k` takes its place.  In
particular `top_k = 3` with `rerank_top_k = 12` retrieves 12 (witness). -/
theorem pipeline_retrieval_depth (settings : Settings) (reranker : Reranker)
    (retrieveFn : Nat → PyStr → List RetrievalResult)
    (generate : PyStr → List RetrievalResult → GenerationPayload)
    (query : PyStr) (hq : ¬ pyStrip query = []) :
    (∀ k : Nat, k ≠ 0 →
      (pipeline_answer settings reranker retrieveFn generate query
          (some k)).2.retrieve_calls = [(max settings.rerank_top_k k, query)]) ∧
    (pipeline_answer settings reranker retrieveFn generate query
        none).2.retrieve_calls =
      [(max settings.rerank_top_k settings.top_k, query)] := by
  constructor
  · intro k hk
    simp [pipeline_answer, hq, pyOrNat, hk]
  · simp [pipeline_answer, hq, pyOrNat]

/-- Witness for `pipeline_retrieval_depth`: requesting `top_k = 3` with
`rerank_top_k = 12` constructs the retriever with depth 12. -/
theorem pipeline_retrieval_depth_witness :
    ¬ pyStrip "q".data = [] ∧
    (pipeline_answer sampleSettings .noop trivialRetrieve trivialGenerate
        "q".data (some 3)).2.retrieve_calls = [(12, "q".data)] := by
  have hq : ¬ pyStrip "q".data = [] := by decide
  refine ⟨hq, ?_⟩
  have h := (pipeline_retrieval_depth sampleSettings .noop trivialRetrieve
    trivialGenerate "q".data hq).1 3 (by decide)
  rw [h]
  decide

/-- C7: a query with an empty (or all-whitespace) strip is rejected with
the `ValueError` before any stage runs: the trace shows no retrieval, no
rerank, no generation and no metrics row. -/
theorem pipeline_empty_query_rejected (settings : Settings) (reranker : Reranker)
    (retrieveFn : Nat → PyStr → List RetrievalResult)
    (generate : PyStr → List RetrievalResult → GenerationPayload)
    (top_k : Option Nat) (query : PyStr) (hq : pyStrip query = []) :
    pipeline_answer settings reranker retrieveFn generate query top_k =
      (.error "Query must not be empty.".data, ⟨[], [], [], []⟩) := by
  simp [pipeline_answer, hq]

/-- Witness for `pipeline_empty_query_rejected` at `answer("")`. -/
theorem pipeline_empty_query_rejected_witness :
    pyStrip ([] : PyStr) = [] ∧
    pipeline_answer sampleSettings .noop trivialRetrieve trivialGenerate
        [] none =
      (.error "Query must not be empty.".data, ⟨[], [], [], []⟩) :=
  ⟨rfl, pipeline_empty_query_rejected sampleSettings .noop trivialRetrieve
    trivialGenerate none [] rfl⟩





/-- C10, counterexample: with defaults `top_k = 2, rerank_top_k = 1` and a
store holding two chunks, `answer(q, top_k=0)` records
`retrieved_k = 2`, which exceeds the requested top-K of 0: Python's
`top_k or self.settings.top_k` treats the requested 0 as falsy. -/
theorem pipeline_metrics_topk_zero_counterexample :
    (pipeline_answer { chunk_size := 100, chunk_overlap := 20,
                       top_k := 2, rerank_top_k := 1 }
        .noop twoResultRetrieve trivialGenerate "q".data
        (some 0)).2.metrics_rows.map (fun r => r.retrieved_k) = [2] ∧
    ¬ (2 : Nat) ≤ 0 := by
  exact ⟨by decide, by decide⟩

/-- C10 (amended): for every successful `answer()` call, the metrics row
records `retrieved_k` equal to the number of reranked results passed to
the generator, which is at most the effective top-K (`top_k or
settings.top_k`: the requested value when positive, otherwise the
configured default) — not the amplified retrieval depth. -/
theorem pipeline_metrics_retrieved_k (settings : Settings) (reranker : Reranker)
    (retrieveFn : Nat → PyStr → List RetrievalResult)
    (generate : PyStr → List RetrievalResult → GenerationPayload)
    (query : PyStr) (top_k : Option Nat) (hq : ¬ pyStrip query = []) :
    ∃ contexts,
      (pipeline_answer settings reranker retrieveFn generate query
          top_k).2.generate_calls = [(query, contexts)] ∧
      (pipeline_answer settings reranker retrieveFn generate query
          top_k).2.metrics_rows =
        [{ query := query, retrieved_k := contexts.length,
           status := "success".data }] ∧
      contexts.length ≤ pyOrNat top_k settings.top_k := by
  refine ⟨annotateRank "rerank_rank".data
    (rerank reranker query
      (annotateRank "retrieval_rank".data
        (retrieveFn (max settings.rerank_top_k (pyOrNat top_k settings.top_k))
          query))
      (pyOrNat top_k settings.top_k)), ?_, ?_, ?_⟩
  · simp [pipeline_answer, hq]
  · simp [pipeline_answer, hq]
  · rw [annotateRank_length]
    exact rerank_length_le reranker query _ _

/-- Witness for `pipeline_metrics_retrieved_k`: two candidates,
`top_k = 2`; the metrics row records 2 and the generator receives the
same two results. -/
theorem pipeline_metrics_retrieved_k_witness :
    ¬ pyStrip "q".data = [] ∧
    ∃ contexts,
      (pipeline_answer sampleSettings .noop twoResultRetrieve trivialGenerate
          "q".data (some 2)).2.generate_calls = [("q".data, contexts)] ∧
      (pipeline_answer sampleSettings .noop twoResultRetrieve trivialGenerate
          "q".data (some 2)).2.metrics_rows =
        [{ query := "q".data, retrieved_k := contexts.length,
           status := "success".data }] ∧
      contexts.length ≤ pyOrNat (some 2) sampleSettings.top_k :=
  ⟨by decide, pipeline_metrics_retrieved_k sampleSettings .noop twoResultRetrieve
    trivialGenerate "q".data (some 2) (by decide)⟩

/-! ## C4: the rerank top-K contract -/

/-- An item appended by `colbertStep` is one of the candidates. -/
theorem colbertStep_mem {passages : List PyStr}
    {candidates : List RetrievalResult} {e : RerankEntry} {seen : List PyStr}
    {item : RetrievalResult} {seen' : List PyStr}
    (h : colbertStep passages candidates e seen = some (item, seen')) :
    item ∈ candidates := by
  simp only [colbertStep] at h
  split at h
  · exact Option.noConfusion h
  · split at h
    · exact Option.noConfusion h
    · next item0 hget =>
      split at h
      · exact Option.noConfusion h
      · rw [Option.some.injEq, Prod.mk.injEq] at h
        rw [← h.1]
        exact List.getElem?_mem hget

/-- Everything returned by `colbertLoop` is an already-ranked item or a
candidate. -/
theorem colbertLoop_mem (passages : List PyStr)
    (candidates : List RetrievalResult) (results : List RerankEntry) :
    ∀ (ranked : List RetrievalResult) (seen : List PyStr),
      ∀ x ∈ colbertLoop passages candidates results ranked seen,
        x ∈ ranked ∨ x ∈ candidates := by
  induction results with
  | nil =>
    intro ranked seen x hx
    exact .inl hx
  | cons e rest ih =>
    intro ranked seen x hx
    rw [colbertLoop] at hx
    rcases hstep : colbertStep passages candidates e seen with _ | ⟨item, seen2⟩
    · rw [hstep] at hx
      exact ih ranked seen x hx
    · rw [hstep] at hx
      rcases ih (ranked ++ [item]) seen2 x hx with hr | hc
      · rcases List.mem_append.1 hr with hr' | hr'
        · exact .inl hr'
        · rw [List.mem_singleton.1 hr']
          exact .inr (colbertStep_mem hstep)
      · exact .inr hc

/-- Every result of `colbert_rerank` is one of the candidates. -/
theorem colbert_rerank_mem (results : List RerankEntry)
    (candidates : List RetrievalResult) (top_k : Nat) :
    ∀ x ∈ colbert_rerank results candidates top_k, x ∈ candidates := by
  intro x hx
  simp only [colbert_rerank] at hx
  have hloop := colbertLoop_mem (candidates.map chunkText) candidates results [] []
  have hbase : ∀ y ∈ colbertLoop (candidates.map chunkText) candidates results [] [],
      y ∈ candidates := by
    intro y hy
    rcases hloop y hy with h | h
    · exact absurd h (List.not_mem_nil y)
    · exact h
  split at hx
  · rcases List.mem_append.1 (List.mem_of_mem_take hx) with h | h
    · exact hbase x h
    · exact (List.mem_filter.1 (List.mem_of_mem_take h)).1
  · exact hbase x (List.mem_of_mem_take hx)

/-- C4, counterexample: the pass-through reranker on two candidates with
the same chunk text returns both — the rerank output can contain two
results with the same chunk text. -/
theorem rerank_noop_duplicate_texts :
    (rerank .noop "q".data
        [{ chunk := { doc_id := "d".data, chunk_id := "c1".data,
                      text := "x".data, start_index := 0, end_index := 0,
                      metadata := [] }, score := 0 },
         { chunk := { doc_id := "d".data, chunk_id := "c2".data,
                      text := "x".data, start_index := 0, end_index := 0,
                      metadata := [] }, score := 0 }] 2).map chunkText =
      ["x".data, "x".data] ∧
    ¬ ((rerank .noop "q".data
        [{ chunk := { doc_id := "d".data, chunk_id := "c1".data,
                      text := "x".data, start_index := 0, end_index := 0,
                      metadata := [] }, score := 0 },
         { chunk := { doc_id := "d".data, chunk_id := "c2".data,
                      text := "x".data, start_index := 0, end_index := 0,
                      metadata := [] }, score := 0 }] 2).map chunkText).Nodup := by
  exact ⟨by decide, by decide⟩

/-- On a well-formed result entry whose text is not yet seen, the step
keeps the referenced candidate and extends `seen_texts` with its (truthy)
text. -/
theorem colbertStep_wf {candidates : List RetrievalResult} {e : RerankEntry}
    {seen : List PyStr} {i : Nat} {p : PyStr} {item : RetrievalResult}
    (hidx : e.result_index = some i)
    (hcont : e.content = some p) (htext : e.text = none)
    (hitem : candidates[i]? = some item)
    (hseen : p ∉ seen) :
    colbertStep (candidates.map chunkText) candidates e seen =
      some (item, if p = [] then seen else p :: seen) := by
  simp only [colbertStep, resolveIndex, hidx, hcont, htext, hitem]
  by_cases hp : p = []
  · subst hp
    simp [pyOrStr, strTruthy]
  · simp [pyOrStr, strTruthy, hp, hseen, List.isEmpty_iff]

/-- The loop of `ColBERTReranker.rerank` preserves: results live among
the candidates and their texts stay pairwise distinct — provided the
candidate texts are pairwise distinct, the model results are well formed,
the not-yet-processed results do not refer to already-ranked passages,
and `seen_texts` covers only ranked texts. -/
theorem colbertLoop_wf (candidates : List RetrievalResult)
    (htexts : (candidates.map chunkText).Nodup) :
    ∀ (results : List RerankEntry) (ranked : List RetrievalResult)
      (seen : List PyStr),
      (results.map (fun e => e.result_index)).Nodup →
      (∀ e ∈ results, ∃ i p, e.result_index = some i ∧
        (candidates.map chunkText)[i]? = some p ∧ e.content = some p ∧
        e.text = none) →
      (∀ x ∈ ranked, x ∈ candidates) →
      ((ranked.map chunkText).Nodup) →
      (∀ e ∈ results, ∀ i, e.result_index = some i →
        ∀ x ∈ ranked, ¬ (candidates.map chunkText)[i]? = some (chunkText x)) →
      (∀ s ∈ seen, s ∈ ranked.map chunkText) →
      (∀ x ∈ colbertLoop (candidates.map chunkText) candidates results ranked seen,
        x ∈ candidates) ∧
      ((colbertLoop (candidates.map chunkText) candidates results ranked
        seen).map chunkText).Nodup := by
  intro results
  induction results with
  | nil =>
    intro ranked seen _ _ hmem hnodup _ _
    exact ⟨hmem, hnodup⟩
  | cons e rest ih =>
    intro ranked seen hidxnodup hwf hmem hnodup hsep hseen
    obtain ⟨i, p, hidx, hp, hcont, htext⟩ := hwf e (List.mem_cons_self e rest)
    have hp' := hp
    rw [List.getElem?_map] at hp'
    obtain ⟨item, hitem, hitem_text⟩ := Option.map_eq_some'.1 hp'
    have hp_not_ranked : ∀ x ∈ ranked, ¬ chunkText x = p := by
      intro x hx hxp
      exact hsep e (List.mem_cons_self e rest) i hidx x hx (by rw [hxp]; exact hp)
    have hp_seen : p ∉ seen := by
      intro hps
      obtain ⟨x, hx, hxp⟩ := List.mem_map.1 (hseen p hps)
      exact hp_not_ranked x hx hxp
    have hstep := colbertStep_wf hidx hcont htext hitem hp_seen
    rw [colbertLoop, hstep]
    refine ih (ranked ++ [item]) (if p = [] then seen else p :: seen)
      ?_ ?_ ?_ ?_ ?_ ?_
    · have : (e.result_index :: rest.map (fun e => e.result_index)).Nodup := by
        simpa using hidxnodup
      exact this.of_cons
    · exact fun e' he' => hwf e' (List.mem_cons_of_mem e he')
    · intro x hx
      rcases List.mem_append.1 hx with h | h
      · exact hmem x h
      · rw [List.mem_singleton.1 h]
        exact List.getElem?_mem hitem
    · rw [List.map_append]
      refine List.nodup_append.2 ⟨hnodup, by simp, ?_⟩
      intro t ht ht'
      have ht'' : t = chunkText item := by simpa using ht'
      obtain ⟨x, hx, hxt⟩ := List.mem_map.1 ht
      exact hp_not_ranked x hx (by rw [hxt, ht'', hitem_text])
    · intro e' he' i' hidx' x hx h'
      rcases List.mem_append.1 hx with h | h
      · exact hsep e' (List.mem_cons_of_mem e he') i' hidx' x h h'
      · rw [List.mem_singleton.1 h, hitem_text] at h'
        have hlen' : i' < (candidates.map chunkText).length :=
          (List.getElem?_eq_some_iff.1 h').1
        have hi : i' = i := by
          apply List.getElem?_inj hlen' htexts
          rw [h', hp]
        subst hi
        have hhead : (e.result_index :: rest.map
            (fun e => e.result_index)).Nodup := by
          simpa using hidxnodup
        have : e'.result_index ∈ rest.map (fun e => e.result_index) :=
          List.mem_map.2 ⟨e', he', rfl⟩
        rw [hidx', ← hidx] at this
        exact (List.nodup_cons.1 hhead).1 this
    · intro s hs
      by_cases hp0 : p = []
      · rw [if_pos hp0] at hs
        rw [List.map_append]
        exact List.mem_append_left _ (hseen s hs)
      · rw [if_neg hp0] at hs
        rcases List.mem_cons.1 hs with h | h
        · rw [List.map_append]
          refine List.mem_append_right _ ?_
          rw [h]
          simp [hitem_text]
        · rw [List.map_append]
          exact List.mem_append_left _ (hseen s h)

/-- With pairwise-distinct candidate texts and a well-formed model
output, `ColBERTReranker.rerank` returns results with pairwise-distinct
chunk texts (dedup plus backfill never introduce a repeat). -/
theorem colbert_rerank_nodup (results : List RerankEntry)
    (candidates : List RetrievalResult) (top_k : Nat)
    (htexts : (candidates.map chunkText).Nodup)
    (hwf : WellFormedResults results (candidates.map chunkText)) :
    ((colbert_rerank results candidates top_k).map chunkText).Nodup := by
  obtain ⟨hmem, hnodup⟩ := colbertLoop_wf candidates htexts results [] []
    hwf.1 hwf.2 (fun x hx => absurd hx (List.not_mem_nil x)) (by simp)
    (fun e _ i _ x hx => absurd hx (List.not_mem_nil x))
    (fun s hs => absurd hs (List.not_mem_nil s))
  simp only [colbert_rerank]
  split
  · next hlt =>
    have hall : ((colbertLoop (candidates.map chunkText) candidates results [] [] ++
        (candidates.filter (fun item => !(decide (item ∈
          colbertLoop (candidates.map chunkText) candidates results [] [])))).take
          (top_k - (colbertLoop (candidates.map chunkText) candidates
            results [] []).length)).map chunkText).Nodup := by
      rw [List.map_append]
      refine List.nodup_append.2 ⟨hnodup, ?_, ?_⟩
      · refine List.Nodup.sublist ?_ htexts
        rw [List.map_take]
        exact ((List.take_sublist _ _).trans
          ((List.filter_sublist _).map chunkText))
      · intro t ht ht'
        obtain ⟨x, hx, hxt⟩ := List.mem_map.1 ht
        obtain ⟨y, hy, hyt⟩ := List.mem_map.1 ht'
        have hy' := List.mem_of_mem_take hy
        have hy'' := List.mem_filter.1 hy'
        have hyc : y ∈ candidates := hy''.1
        have hynr : ¬ y ∈ colbertLoop (candidates.map chunkText) candidates
            results [] [] := by
          have := hy''.2
          simpa using this
        have hxy : x = y :=
          List.inj_on_of_nodup_map htexts (hmem x hx) hyc (by rw [hxt, hyt])
        exact hynr (hxy ▸ hx)
    rw [List.map_take]
    exact List.Nodup.sublist (List.take_sublist _ _) hall
  · rw [List.map_take]
    exact List.Nodup.sublist (List.take_sublist _ _) hnodup

/-- C4 (amended): for every reranker variant, query, candidate sequence
and `k`, `rerank(query, candidates, k)` returns at most `k` results, each
an element of the original candidate sequence; and under the conditions
the original claim left implicit — the candidates' chunk texts are
pairwise distinct, and (for the cross-encoder variant) the external
model's results are well formed — no two returned results have the same
chunk text. -/
theorem rerank_topk_contract (r : Reranker) (query : PyStr)
    (candidates : List RetrievalResult) (top_k : Nat) :
    ((rerank r query candidates top_k).length ≤ top_k ∧
      ∀ x ∈ rerank r query candidates top_k, x ∈ candidates) ∧
    ((candidates.map chunkText).Nodup → RerankerWF r query candidates top_k →
      ((rerank r query candidates top_k).map chunkText).Nodup) := by
  refine ⟨⟨rerank_length_le r query candidates top_k, ?_⟩, ?_⟩
  · cases r with
    | noop =>
      intro x hx
      exact List.mem_of_mem_take hx
    | colbert model =>
      intro x hx
      exact colbert_rerank_mem _ _ _ x hx
  · intro htexts hwf
    cases r with
    | noop =>
      simp only [rerank]
      rw [List.map_take]
      exact List.Nodup.sublist (List.take_sublist _ _) htexts
    | colbert model =>
      exact colbert_rerank_nodup _ _ _ htexts hwf



/-- Witness for `rerank_topk_contract`: the pass-through variant on two
distinct-text candidates with `k = 1`. -/
theorem rerank_topk_contract_witness :
    (twoDistinctCandidates.map chunkText).Nodup ∧
    RerankerWF .noop "q".data twoDistinctCandidates 1 ∧
    ((rerank .noop "q".data twoDistinctCandidates 1).length ≤ 1 ∧
      ∀ x ∈ rerank .noop "q".data twoDistinctCandidates 1,
        x ∈ twoDistinctCandidates) ∧
    ((rerank .noop "q".data twoDistinctCandidates 1).map chunkText).Nodup := by
  have htexts : (twoDistinctCandidates.map chunkText).Nodup := by decide
  have hwf : RerankerWF .noop "q".data twoDistinctCandidates 1 := trivial
  have h := rerank_topk_contract .noop "q".data twoDistinctCandidates 1
  exact ⟨htexts, hwf, h.1, h.2 htexts hwf⟩

/-! ## C9: chunk invariants — basic bounds -/

/-- Stripping never lengthens a string. -/
theorem length_pyStrip_le (s : PyStr) : (pyStrip s).length ≤ s.length := by
  unfold pyStrip
  rw [List.length_reverse]
  calc ((s.dropWhile Char.isWhitespace).reverse.dropWhile Char.isWhitespace).length
      ≤ (s.dropWhile Char.isWhitespace).reverse.length :=
        (List.dropWhile_sublist _).length_le
    _ = (s.dropWhile Char.isWhitespace).length := List.length_reverse _
    _ ≤ s.length := (List.dropWhile_sublist _).length_le

theorem splitParts_ne_nil (cs : PyStr) : splitParts cs ≠ [] := by
  cases cs with
  | nil => simp [splitParts]
  | cons c rest =>
    rw [splitParts]
    split
    · simp
    · split
      · simp
      · simp

/-- The parts of the sentence split concatenate back to the text. -/
theorem flatten_splitParts (cs : PyStr) : (splitParts cs).flatten = cs := by
  induction cs with
  | nil => simp [splitParts]
  | cons c rest ih =>
    rw [splitParts]
    split
    · simp [ih]
    · next hsep =>
      rcases h : splitParts rest with _ | ⟨p, ps⟩
      · exact absurd h (splitParts_ne_nil rest)
      · rw [h] at ih
        simp only [List.flatten_cons] at ih ⊢
        rw [List.cons_append, ih]

theorem sumLen_nil : sumLen [] = 0 := rfl

theorem sumLen_cons (s : PyStr) (l : List PyStr) :
    sumLen (s :: l) = s.length + sumLen l := by
  simp [sumLen]

theorem sumLen_append (a b : List PyStr) :
    sumLen (a ++ b) = sumLen a + sumLen b := by
  simp [sumLen]

/-- `sumLen` of the parts is the text's length. -/
theorem sumLen_splitParts (cs : PyStr) : sumLen (splitParts cs) = cs.length := by
  have := congrArg List.length (flatten_splitParts cs)
  rw [List.length_flatten] at this
  exact this

/-- The sentences kept by the accumulation loop never contain more
characters than the buffer plus the unread parts. -/
theorem sumLen_sentencesLoop_le :
    ∀ (parts : List PyStr) (buffer : PyStr),
      sumLen (sentencesLoop parts buffer) ≤ buffer.length + sumLen parts := by
  intro parts
  induction parts with
  | nil =>
    intro buffer
    rw [sentencesLoop]
    split
    · simp [sumLen_nil]
    · have := length_pyStrip_le buffer
      simp only [sumLen_cons, sumLen_nil]
      omega
  | cons part rest ih =>
    intro buffer
    rw [sentencesLoop]
    split
    · have := ih buffer
      rw [sumLen_cons]
      omega
    · split
      · have h1 := length_pyStrip_le (buffer ++ part)
        have h2 := ih []
        rw [sumLen_cons, sumLen_cons]
        rw [List.length_append] at h1
        simp only [List.length_nil] at h2
        omega
      · have := ih (buffer ++ part)
        rw [List.length_append] at this
        rw [sumLen_cons]
        omega

/-- The sentences of a text never contain more characters than the text. -/
theorem sumLen_splitSentences_le (t : PyStr) :
    sumLen (splitSentences t) ≤ t.length := by
  simp only [splitSentences]
  split
  · simp [sumLen_cons, sumLen_nil]
  · have := sumLen_sentencesLoop_le (splitParts t) []
    rw [sumLen_splitParts] at this
    simpa using this

/-- The overlap loop keeps a sub-window: its total length never grows. -/
theorem sumLen_dropOverlap_le (overlap : Nat) :
    ∀ (l : List PyStr) (len : Nat), sumLen (dropOverlap overlap l len) ≤ sumLen l := by
  intro l
  induction l with
  | nil => intro len; simp [dropOverlap]
  | cons s rest ih =>
    intro len
    rw [dropOverlap]
    split
    · have := ih (len - s.length)
      rw [sumLen_cons]
      omega
    · exact le_refl _

/-! ## C9: decimal formatting and chunk-id injectivity -/

theorem decDigitsF_fuel :
    ∀ (f1 f2 n : Nat), n ≤ f1 → n ≤ f2 → decDigitsF f1 n = decDigitsF f2 n := by
  intro f1
  induction f1 with
  | zero =>
    intro f2 n h1 h2
    have hn : n = 0 := by omega
    subst hn
    cases f2 <;> rfl
  | succ g1 ih =>
    intro f2 n h1 h2
    cases n with
    | zero => cases f2 <;> rfl
    | succ m =>
      cases f2 with
      | zero => omega
      | succ g2 =>
        show decDigitsF g1 ((m + 1) / 10) ++ [(m + 1) % 10] =
          decDigitsF g2 ((m + 1) / 10) ++ [(m + 1) % 10]
        have hd : (m + 1) / 10 < m + 1 :=
          Nat.div_lt_self (Nat.succ_pos m) (by norm_num)
        rw [ih g2 ((m + 1) / 10) (by omega) (by omega)]

theorem decDigits_succ (n : Nat) :
    decDigits (n + 1) = decDigits ((n + 1) / 10) ++ [(n + 1) % 10] := by
  have hd : (n + 1) / 10 < n + 1 := Nat.div_lt_self (Nat.succ_pos n) (by norm_num)
  show decDigitsF (n + 1) (n + 1) =
    decDigitsF ((n + 1) / 10) ((n + 1) / 10) ++ [(n + 1) % 10]
  have h0 : decDigitsF (n + 1) (n + 1) =
      decDigitsF n ((n + 1) / 10) ++ [(n + 1) % 10] := rfl
  rw [h0, decDigitsF_fuel n ((n + 1) / 10) ((n + 1) / 10) (by omega) (le_refl _)]

theorem valNat_append_digit (ds : List Nat) (d : Nat) :
    valNat (ds ++ [d]) = 10 * valNat ds + d := by
  simp [valNat, List.foldl_append]

theorem valNat_decDigits : ∀ n, valNat (decDigits n) = n := by
  intro n
  induction n using Nat.strong_induction_on with
  | _ n ih =>
    cases n with
    | zero => rfl
    | succ m =>
      rw [decDigits_succ, valNat_append_digit,
        ih ((m + 1) / 10) (Nat.div_lt_self (Nat.succ_pos m) (by norm_num))]
      omega

theorem decDigits_lt_ten : ∀ n, ∀ d ∈ decDigits n, d < 10 := by
  intro n
  induction n using Nat.strong_induction_on with
  | _ n ih =>
    cases n with
    | zero =>
      intro d hd
      exact absurd hd (List.not_mem_nil d)
    | succ m =>
      intro d hd
      rw [decDigits_succ] at hd
      rcases List.mem_append.1 hd with h | h
      · exact ih ((m + 1) / 10) (Nat.div_lt_self (Nat.succ_pos m) (by norm_num)) d h
      · rw [List.mem_singleton.1 h]
        exact Nat.mod_lt _ (by norm_num)

theorem pyNatRepr_lt_ten (n : Nat) : ∀ d ∈ pyNatRepr n, d < 10 := by
  unfold pyNatRepr
  split
  · intro d hd
    rw [List.mem_singleton.1 hd]
    norm_num
  · exact decDigits_lt_ten n

theorem valNat_pyNatRepr (n : Nat) : valNat (pyNatRepr n) = n := by
  unfold pyNatRepr
  split
  · next h => rw [h]; rfl
  · exact valNat_decDigits n

theorem digitChar_toNat {d : Nat} (hd : d < 10) :
    (Nat.digitChar d).toNat = 48 + d := by
  interval_cases d <;> rfl

theorem digitChar_ne_underscore {d : Nat} (hd : d < 10) :
    Nat.digitChar d ≠ '_' := by
  interval_cases d <;> decide

theorem charsVal_map_digitChar :
    ∀ (ds : List Nat), (∀ d ∈ ds, d < 10) →
      ∀ (a : Nat),
        (ds.map Nat.digitChar).foldl (fun a c => 10 * a + (c.toNat - 48)) a =
          ds.foldl (fun a d => 10 * a + d) a := by
  intro ds
  induction ds with
  | nil =>
    intro _ a
    rfl
  | cons d rest ih =>
    intro h a
    simp only [List.map_cons, List.foldl_cons]
    rw [digitChar_toNat (h d (List.mem_cons_self d rest))]
    have h48 : 48 + d - 48 = d := by omega
    rw [h48]
    exact ih (fun x hx => h x (List.mem_cons_of_mem d hx)) _

theorem charsVal_replicate_zero (k : Nat) (cs : PyStr) :
    charsVal (List.replicate k '0' ++ cs) = charsVal cs := by
  induction k with
  | zero => rfl
  | succ m ih =>
    rw [List.replicate_succ, List.cons_append]
    show charsVal (List.replicate m '0' ++ cs) = charsVal cs
    exact ih

theorem charsVal_fmt05 (n : Nat) : charsVal (fmt05 n) = n := by
  simp only [fmt05]
  rw [charsVal_replicate_zero]
  have h := charsVal_map_digitChar (pyNatRepr n) (pyNatRepr_lt_ten n) 0
  show ((pyNatRepr n).map Nat.digitChar).foldl
    (fun a c => 10 * a + (c.toNat - 48)) 0 = n
  rw [h]
  exact valNat_pyNatRepr n

theorem fmt05_injective {a b : Nat} (h : fmt05 a = fmt05 b) : a = b := by
  have hv := congrArg charsVal h
  rwa [charsVal_fmt05, charsVal_fmt05] at hv

theorem fmt05_no_underscore (n : Nat) : '_' ∉ fmt05 n := by
  simp only [fmt05]
  intro hmem
  rcases List.mem_append.1 hmem with h | h
  · exact absurd (List.eq_of_mem_replicate h) (by decide)
  · obtain ⟨d, hd, hdc⟩ := List.mem_map.1 h
    exact digitChar_ne_underscore (pyNatRepr_lt_ten n d hd) hdc

/-- Splitting two equal strings at an underscore known to be the last one
of each recovers equal halves. -/
theorem append_underscore_inj :
    ∀ (d1 d2 f1 f2 : PyStr), '_' ∉ f1 → '_' ∉ f2 →
      d1 ++ '_' :: f1 = d2 ++ '_' :: f2 → d1 = d2 ∧ f1 = f2 := by
  intro d1
  induction d1 with
  | nil =>
    intro d2 f1 f2 h1 h2 h
    cases d2 with
    | nil =>
      simp only [List.nil_append] at h
      injection h with _ hf
      exact ⟨rfl, hf⟩
    | cons c d2c =>
      simp only [List.nil_append, List.cons_append] at h
      injection h with hc ht
      exfalso
      apply h1
      rw [ht]
      exact List.mem_append_right _ (List.mem_cons_self _ _)
  | cons c d1c ih =>
    intro d2 f1 f2 h1 h2 h
    cases d2 with
    | nil =>
      simp only [List.nil_append, List.cons_append] at h
      injection h with hc ht
      exfalso
      apply h2
      rw [← ht]
      exact List.mem_append_right _ (List.mem_cons_self _ _)
    | cons c2 d2c =>
      simp only [List.cons_append] at h
      injection h with hc ht
      obtain ⟨hd, hf⟩ := ih d2c f1 f2 h1 h2 ht
      exact ⟨by rw [hc, hd], hf⟩

/-- Chunk ids determine the document id and the chunk index: `fmt05`
emits no underscore, so the separator before it is the last one. -/
theorem chunkId_inj {d1 d2 : PyStr} {i j : Nat}
    (h : chunkId d1 i = chunkId d2 j) : d1 = d2 ∧ i = j := by
  obtain ⟨hd, hf⟩ := append_underscore_inj d1 d2 (fmt05 i) (fmt05 j)
    (fmt05_no_underscore i) (fmt05_no_underscore j) h
  exact ⟨hd, fmt05_injective hf⟩

/-! ## C9: the chunking invariants -/

/-- Basic facts about an emitted chunk, available whenever the state's
running length is consistent and bounded by the cursor. -/
theorem emitChunk_facts (document : RawDocument) (st : ChunkState)
    (h1 : st.current_length = sumLen st.current_chunk)
    (h2 : st.current_length ≤ st.text_cursor) :
    (emitChunk document st).doc_id = document.doc_id ∧
    (emitChunk document st).chunk_id = chunkId document.doc_id st.chunk_index ∧
    (emitChunk document st).start_index = st.text_cursor - st.current_length ∧
    (emitChunk document st).start_index ≤ (emitChunk document st).end_index ∧
    (emitChunk document st).end_index ≤ st.text_cursor := by
  have hlen : (pyStrip st.current_chunk.flatten).length ≤ st.current_length := by
    calc (pyStrip st.current_chunk.flatten).length
        ≤ st.current_chunk.flatten.length := length_pyStrip_le _
      _ = sumLen st.current_chunk := by simp [sumLen]
      _ = st.current_length := h1.symm
  refine ⟨rfl, rfl, rfl, ?_, ?_⟩
  · show st.text_cursor - st.current_length ≤
      (st.text_cursor - st.current_length) + (pyStrip st.current_chunk.flatten).length
    omega
  · show (st.text_cursor - st.current_length) +
      (pyStrip st.current_chunk.flatten).length ≤ st.text_cursor
    omega

/-- One step of the sentence loop preserves the invariant. -/
theorem chunkStep_inv (document : RawDocument) (chunk_size overlap : Nat)
    (st : ChunkState) (sentence : PyStr) (hinv : ChunkInv document st) :
    ChunkInv document (chunkStep document chunk_size overlap st sentence) := by
  obtain ⟨h1, h2, h3, h4, h5, h6, h7⟩ := hinv
  by_cases hc : st.current_length + sentence.length > chunk_size ∧
      st.current_chunk ≠ []
  · obtain ⟨he1, he2, he3, he4, he5⟩ := emitChunk_facts document st h1 h2
    have hrest := sumLen_dropOverlap_le overlap st.current_chunk st.current_length
    rw [← h1] at hrest
    simp only [chunkStep, if_pos hc]
    refine ⟨?_, ?_, ?_, ?_, ?_, ?_, ?_⟩
    · show sumLen (dropOverlap overlap st.current_chunk st.current_length) +
        sentence.length = sumLen
          (dropOverlap overlap st.current_chunk st.current_length ++ [sentence])
      rw [sumLen_append, sumLen_cons, sumLen_nil]
      omega
    · show sumLen (dropOverlap overlap st.current_chunk st.current_length) +
        sentence.length ≤ st.text_cursor + sentence.length
      omega
    · show (st.chunks ++ [emitChunk document st]).map (fun c => c.chunk_id) =
        (List.range (st.chunk_index + 1)).map (chunkId document.doc_id)
      rw [List.map_append, h3, List.range_succ, List.map_append]
      simp [he2]
    · intro c hcm
      rcases List.mem_append.1 hcm with h | h
      · exact h4 c h
      · rw [List.mem_singleton.1 h]
        exact he1
    · intro c hcm
      show c.start_index ≤ (st.text_cursor + sentence.length) -
        (sumLen (dropOverlap overlap st.current_chunk st.current_length) +
          sentence.length)
      rcases List.mem_append.1 hcm with h | h
      · have := h5 c h
        omega
      · rw [List.mem_singleton.1 h, he3]
        omega
    · intro c hcm
      show c.start_index ≤ c.end_index ∧
        c.end_index ≤ st.text_cursor + sentence.length
      rcases List.mem_append.1 hcm with h | h
      · have := h6 c h
        omega
      · rw [List.mem_singleton.1 h]
        exact ⟨he4, by omega⟩
    · show List.Pairwise (· ≤ ·)
        ((st.chunks ++ [emitChunk document st]).map (fun c => c.start_index))
      rw [List.map_append]
      refine List.pairwise_append.2 ⟨h7, by simp, ?_⟩
      intro a ha b hb
      simp only [List.map_cons, List.map_nil, List.mem_singleton] at hb
      obtain ⟨c, hcm, hca⟩ := List.mem_map.1 ha
      rw [hb, he3, ← hca]
      exact h5 c hcm
  · simp only [chunkStep, if_neg hc]
    refine ⟨?_, ?_, h3, h4, ?_, ?_, h7⟩
    · show st.current_length + sentence.length =
        sumLen (st.current_chunk ++ [sentence])
      rw [sumLen_append, sumLen_cons, sumLen_nil, h1]
      omega
    · show st.current_length + sentence.length ≤
        st.text_cursor + sentence.length
      omega
    · intro c hcm
      show c.start_index ≤ (st.text_cursor + sentence.length) -
        (st.current_length + sentence.length)
      have := h5 c hcm
      omega
    · intro c hcm
      have := h6 c hcm
      refine ⟨this.1, ?_⟩
      show c.end_index ≤ st.text_cursor + sentence.length
      omega

theorem foldl_chunkStep_inv (document : RawDocument) (chunk_size overlap : Nat) :
    ∀ (sentences : List PyStr) (st : ChunkState), ChunkInv document st →
      ChunkInv document
        (sentences.foldl (chunkStep document chunk_size overlap) st) := by
  intro sentences
  induction sentences with
  | nil =>
    intro st h
    exact h
  | cons s rest ih =>
    intro st h
    exact ih _ (chunkStep_inv document chunk_size overlap st s h)

theorem initChunkState_inv (document : RawDocument) :
    ChunkInv document initChunkState := by
  refine ⟨rfl, le_refl _, rfl, ?_, ?_, ?_, ?_⟩ <;> simp [initChunkState]

theorem chunkStep_cursor (document : RawDocument) (chunk_size overlap : Nat)
    (st : ChunkState) (sentence : PyStr) :
    (chunkStep document chunk_size overlap st sentence).text_cursor =
      st.text_cursor + sentence.length := by
  by_cases hc : st.current_length + sentence.length > chunk_size ∧
      st.current_chunk ≠ []
  · simp [chunkStep, if_pos hc]
  · simp [chunkStep, if_neg hc]

theorem foldl_chunkStep_cursor (document : RawDocument) (chunk_size overlap : Nat) :
    ∀ (sentences : List PyStr) (st : ChunkState),
      (sentences.foldl (chunkStep document chunk_size overlap) st).text_cursor =
        st.text_cursor + sumLen sentences := by
  intro sentences
  induction sentences with
  | nil =>
    intro st
    simp [sumLen_nil]
  | cons s rest ih =>
    intro st
    rw [List.foldl_cons, ih, chunkStep_cursor, sumLen_cons]
    omega

/-- The per-document chunking facts: document id, offset bounds,
non-decreasing starts, and the chunk ids being exactly
`chunkId doc 0 .. chunkId doc (n-1)` in order. -/
theorem chunk_document_facts (document : RawDocument) (chunk_size overlap : Nat) :
    (∀ c ∈ chunk_document document chunk_size overlap,
      c.doc_id = document.doc_id) ∧
    (∀ c ∈ chunk_document document chunk_size overlap,
      c.start_index ≤ c.end_index ∧ c.end_index ≤ document.text.length) ∧
    List.Pairwise (· ≤ ·)
      ((chunk_document document chunk_size overlap).map (fun c => c.start_index)) ∧
    (∃ n, (chunk_document document chunk_size overlap).map (fun c => c.chunk_id) =
      (List.range n).map (chunkId document.doc_id)) := by
  simp only [chunk_document]
  split
  · exact ⟨by simp, by simp, by simp, ⟨0, by simp⟩⟩
  · have hinv := foldl_chunkStep_inv document chunk_size overlap
      (splitSentences document.text) initChunkState (initChunkState_inv document)
    set final := (splitSentences document.text).foldl
      (chunkStep document chunk_size overlap) initChunkState with hfinal
    obtain ⟨h1, h2, h3, h4, h5, h6, h7⟩ := hinv
    have hcursor : final.text_cursor ≤ document.text.length := by
      rw [hfinal, foldl_chunkStep_cursor]
      have := sumLen_splitSentences_le document.text
      simp only [initChunkState]
      omega
    split
    · obtain ⟨he1, he2, he3, he4, he5⟩ := emitChunk_facts document final h1 h2
      refine ⟨?_, ?_, ?_, ⟨final.chunk_index + 1, ?_⟩⟩
      · intro c hcm
        rcases List.mem_append.1 hcm with h | h
        · exact h4 c h
        · rw [List.mem_singleton.1 h]
          exact he1
      · intro c hcm
        rcases List.mem_append.1 hcm with h | h
        · exact ⟨(h6 c h).1, le_trans (h6 c h).2 hcursor⟩
        · rw [List.mem_singleton.1 h]
          exact ⟨he4, le_trans he5 hcursor⟩
      · rw [List.map_append]
        refine List.pairwise_append.2 ⟨h7, by simp, ?_⟩
        intro a ha b hb
        simp only [List.map_cons, List.map_nil, List.mem_singleton] at hb
        obtain ⟨c, hcm, hca⟩ := List.mem_map.1 ha
        rw [hb, he3, ← hca]
        exact h5 c hcm
      · rw [List.map_append, h3, List.range_succ, List.map_append]
        simp [he2]
    · exact ⟨h4, fun c hcm => ⟨(h6 c hcm).1, le_trans (h6 c hcm).2 hcursor⟩, h7,
        ⟨final.chunk_index, h3⟩⟩

/-- Within one document the chunk ids are pairwise distinct. -/
theorem chunk_document_ids_nodup (document : RawDocument)
    (chunk_size overlap : Nat) :
    ((chunk_document document chunk_size overlap).map
      (fun c => c.chunk_id)).Nodup := by
  obtain ⟨n, hn⟩ := (chunk_document_facts document chunk_size overlap).2.2.2
  rw [hn]
  refine List.Nodup.map ?_ (List.nodup_range n)
  intro i j hij
  exact (chunkId_inj hij).2

theorem chunk_corpus_cons (d : RawDocument) (docs : List RawDocument)
    (chunk_size overlap : Nat) :
    chunk_corpus (d :: docs) chunk_size overlap =
      chunk_document d chunk_size overlap ++ chunk_corpus docs chunk_size overlap := by
  simp [chunk_corpus]

/-- Every corpus chunk id comes from one of the corpus documents. -/
theorem chunk_corpus_id_shape (chunk_size overlap : Nat) :
    ∀ (docs : List RawDocument), ∀ c ∈ chunk_corpus docs chunk_size overlap,
      ∃ d ∈ docs, ∃ j, c.chunk_id = chunkId d.doc_id j := by
  intro docs
  induction docs with
  | nil =>
    intro c hcm
    simp [chunk_corpus] at hcm
  | cons d rest ih =>
    intro c hcm
    rw [chunk_corpus_cons] at hcm
    rcases List.mem_append.1 hcm with h | h
    · obtain ⟨n, hn⟩ := (chunk_document_facts d chunk_size overlap).2.2.2
      have hmm : c.chunk_id ∈ (chunk_document d chunk_size overlap).map
          (fun c => c.chunk_id) := List.mem_map.2 ⟨c, h, rfl⟩
      rw [hn] at hmm
      obtain ⟨j, hj, hjc⟩ := List.mem_map.1 hmm
      exact ⟨d, List.mem_cons_self d rest, j, hjc.symm⟩
    · obtain ⟨d2, hd2, j, hj⟩ := ih c h
      exact ⟨d2, List.mem_cons_of_mem d hd2, j, hj⟩

/-- With pairwise-distinct document ids, corpus chunk ids are pairwise
distinct. -/
theorem chunk_corpus_ids_nodup (chunk_size overlap : Nat) :
    ∀ (docs : List RawDocument), (docs.map (fun d => d.doc_id)).Nodup →
      ((chunk_corpus docs chunk_size overlap).map (fun c => c.chunk_id)).Nodup := by
  intro docs
  induction docs with
  | nil =>
    intro _
    simp [chunk_corpus]
  | cons d rest ih =>
    intro h
    rw [chunk_corpus_cons, List.map_append]
    have hcons : (d.doc_id :: rest.map (fun d => d.doc_id)).Nodup := by
      simpa using h
    refine List.nodup_append.2
      ⟨chunk_document_ids_nodup d chunk_size overlap, ih hcons.of_cons, ?_⟩
    intro t ht ht2
    obtain ⟨n, hn⟩ := (chunk_document_facts d chunk_size overlap).2.2.2
    rw [hn] at ht
    obtain ⟨i, hi, hit⟩ := List.mem_map.1 ht
    obtain ⟨c, hcm, hct⟩ := List.mem_map.1 ht2
    obtain ⟨d2, hd2, j, hj⟩ := chunk_corpus_id_shape chunk_size overlap rest c hcm
    have heq : chunkId d.doc_id i = chunkId d2.doc_id j := by
      rw [hit, ← hct, hj]
    apply (List.nodup_cons.1 hcons).1
    rw [(chunkId_inj heq).1]
    exact List.mem_map.2 ⟨d2, hd2, rfl⟩

/-- C9: for every document and chunking parameters, each produced chunk
satisfies `start_index ≤ end_index ≤ len(text)`; the chunks of one
document come in non-decreasing start-offset order; and across a corpus
of documents with pairwise-distinct ids, the chunk ids are pairwise
distinct. -/
theorem chunking_invariants (chunk_size overlap : Nat) :
    (∀ document : RawDocument, ∀ c ∈ chunk_document document chunk_size overlap,
      c.start_index ≤ c.end_index ∧ c.end_index ≤ document.text.length) ∧
    (∀ document : RawDocument,
      List.Pairwise (· ≤ ·)
        ((chunk_document document chunk_size overlap).map
          (fun c => c.start_index))) ∧
    (∀ documents : List RawDocument,
      (documents.map (fun d => d.doc_id)).Nodup →
      ((chunk_corpus documents chunk_size overlap).map
        (fun c => c.chunk_id)).Nodup) :=
  ⟨fun document => (chunk_document_facts document chunk_size overlap).2.1,
   fun document => (chunk_document_facts document chunk_size overlap).2.2.1,
   fun documents => chunk_corpus_ids_nodup chunk_size overlap documents⟩

/-- Witness for `chunking_invariants`: a two-document corpus with
distinct ids has pairwise-distinct chunk ids. -/
theorem chunking_invariants_witness :
    (([twoSentenceDoc,
       { doc_id := "e".data, text := "你好。".data, source_path := [],
         metadata := [] }] : List RawDocument).map
      (fun d => d.doc_id)).Nodup ∧
    ((chunk_corpus [twoSentenceDoc,
       { doc_id := "e".data, text := "你好。".data, source_path := [],
         metadata := [] }] 10 2).map (fun c => c.chunk_id)).Nodup := by
  have hd : (([twoSentenceDoc,
      { doc_id := "e".data, text := "你好。".data, source_path := [],
        metadata := [] }] : List RawDocument).map
      (fun d => d.doc_id)).Nodup := by decide
  exact ⟨hd, (chunking_invariants 10 2).2.2 _ hd⟩

end RAG
